import Mathlib

/-!
# Wallet ledger service: a shallow embedding

Shallow embedding of `pkg/wallet/service.go`: an in-memory ledger of
accounts, payments and favorites, with a flat-file export/import of the
accounts collection.

Modelling conventions:
* Go `int64` values (`types.Money`, account IDs) are modelled as `Int`;
  `strconv.ParseInt` clamps to the `int64` range exactly as Go does.
* Go strings are modelled as `List Char`.
* Mutation through pointers into the slices is modelled by updating the
  first list entry matching the looked-up ID, which is the entry the Go
  pointer refers to.
* `uuid.New().String()` is nondeterministic fresh-ID generation; the
  fresh ID is passed as an explicit argument.
* File I/O is modelled by its content: `ExportToFile` returns the bytes
  written, `ImportFromFile` takes the bytes read (open and read assumed
  successful).  A Go runtime panic (index out of range) is modelled as
  `none`; `some` is a normal return, whose Go error result is `nil` on
  every modelled path of `ImportFromFile`.
-/

namespace Wallet

/-- Modelled from the spec: `types.Money`, an integer currency amount in
minor units (Go `int64`). The `types` package is not part of the sources;
its passive data shapes are taken from the spec's data model. -/
abbrev Money := Int

/-- Modelled from the spec: `types.PaymentStatus`, the status enum
`{InProgress, Failed}` of a payment. -/
inductive PaymentStatus where
  | inProgress
  | fail
deriving DecidableEq, Repr

/-- Modelled from the spec: `types.Account` — ID, phone, balance. -/
structure Account where
  ID      : Int
  Phone   : List Char
  Balance : Money
deriving DecidableEq, Repr

/-- Modelled from the spec: `types.Payment`. -/
structure Payment where
  ID        : List Char
  AccountID : Int
  Amount    : Money
  Category  : List Char
  Status    : PaymentStatus
deriving DecidableEq, Repr

/-- Modelled from the spec: `types.Favorite`, a reusable payment template. -/
structure Favorite where
  ID        : List Char
  AccountID : Int
  Name      : List Char
  Amount    : Money
  Category  : List Char
deriving DecidableEq, Repr

/-- The sentinel errors declared at the top of `service.go`. -/
inductive Err where
  | phoneRegistered
  | amountMustBePositive
  | accountNotFound
  | notEnoughBalance
  | paymentNotFound
  | cannotRegisterAccount
  | cannotDepositAccount
  | favoriteNotFound
deriving DecidableEq, Repr

/-- The `Service` struct: ID counter plus the three collections. -/
structure Service where
  nextAccountID : Int
  accounts      : List Account
  payments      : List Payment
  favorites     : List Favorite
deriving DecidableEq, Repr

/-- A zero-valued `Service`, as produced by `&wallet.Service{}` in Go. -/
def emptyService : Service := ⟨0, [], [], []⟩

/-- Update the first element satisfying `p` (the element a Go pointer
obtained from a first-match search refers to), leaving the rest alone. -/
def updateFirst (p : α → Bool) (f : α → α) : List α → List α
  | [] => []
  | x :: xs => if p x then f x :: xs else x :: updateFirst p f xs

/-- `Service.RegisterAccount`: reject a duplicate phone, otherwise
increment the counter and append a zero-balance account. -/
def RegisterAccount (s : Service) (phone : List Char) :
    Except Err Account × Service :=
  if s.accounts.any (fun a => a.Phone == phone) then
    (.error .phoneRegistered, s)
  else
    let account : Account :=
      { ID := s.nextAccountID + 1, Phone := phone, Balance := 0 }
    (.ok account,
     { s with nextAccountID := s.nextAccountID + 1,
              accounts := s.accounts ++ [account] })

/-- `Service.Deposit`: positive amounts only; credits the first account
with the given ID. -/
def Deposit (s : Service) (accountID : Int) (amount : Money) :
    Except Err Unit × Service :=
  if amount ≤ 0 then
    (.error .amountMustBePositive, s)
  else
    match s.accounts.find? (fun a => a.ID == accountID) with
    | none => (.error .accountNotFound, s)
    | some _ =>
      let accounts2 :=
        updateFirst (fun a => a.ID == accountID)
          (fun a => { a with Balance := a.Balance + amount }) s.accounts
      (.ok (), { s with accounts := accounts2 })

/-- `Service.FindAccountByID`: linear first-match lookup. -/
def FindAccountByID (s : Service) (accountID : Int) : Except Err Account :=
  match s.accounts.find? (fun a => a.ID == accountID) with
  | some account => .ok account
  | none => .error .accountNotFound

/-- `Service.FindPaymentByID`: linear first-match lookup. -/
def FindPaymentByID (s : Service) (paymentID : List Char) : Except Err Payment :=
  match s.payments.find? (fun p => p.ID == paymentID) with
  | some payment => .ok payment
  | none => .error .paymentNotFound

/-- `Service.Pay`: validates amount, account and balance, then debits the
account and appends an `InProgress` payment under the fresh ID. -/
def Pay (s : Service) (accountID : Int) (amount : Money)
    (category : List Char) (freshID : List Char) :
    Except Err Payment × Service :=
  if amount ≤ 0 then
    (.error .amountMustBePositive, s)
  else
    match FindAccountByID s accountID with
    | .error e => (.error e, s)
    | .ok account =>
      if account.Balance < amount then
        (.error .notEnoughBalance, s)
      else
        let payment : Payment :=
          { ID := freshID, AccountID := accountID, Amount := amount,
            Category := category, Status := .inProgress }
        let accounts2 :=
          updateFirst (fun a => a.ID == accountID)
            (fun a => { a with Balance := a.Balance - amount }) s.accounts
        (.ok payment,
         { s with accounts := accounts2, payments := s.payments ++ [payment] })

/-- `Service.Reject`: finds the payment, then its account, then marks the
payment `Failed` and refunds its amount — unconditionally. -/
def Reject (s : Service) (paymentID : List Char) : Except Err Unit × Service :=
  match FindPaymentByID s paymentID with
  | .error e => (.error e, s)
  | .ok payment =>
    match FindAccountByID s payment.AccountID with
    | .error e => (.error e, s)
    | .ok _ =>
      let payments2 :=
        updateFirst (fun p => p.ID == paymentID)
          (fun p => { p with Status := .fail }) s.payments
      let accounts2 :=
        updateFirst (fun a => a.ID == payment.AccountID)
          (fun a => { a with Balance := a.Balance + payment.Amount }) s.accounts
      (.ok (), { s with payments := payments2, accounts := accounts2 })

/-- `Service.AddAccountWithBalance`: `RegisterAccount` then `Deposit`,
masking either failure behind its own opaque error.  The Go function
returns a pointer into the accounts slice; at return time it points at
the last (freshly appended) entry, hence `getLastD` on success. -/
def AddAccountWithBalance (s : Service) (phone : List Char) (balance : Money) :
    Except Err Account × Service :=
  match RegisterAccount s phone with
  | (.error _, s1) => (.error .cannotRegisterAccount, s1)
  | (.ok account, s1) =>
    match Deposit s1 account.ID balance with
    | (.error _, s2) => (.error .cannotDepositAccount, s2)
    | (.ok _, s2) =>
      (.ok (s2.accounts.getLastD account), s2)

/-- `Service.Repeat`: re-runs the target payment's parameters through
`Pay`, producing a brand-new payment under a fresh ID. -/
def Repeat (s : Service) (paymentID : List Char) (freshID : List Char) :
    Except Err Payment × Service :=
  match FindPaymentByID s paymentID with
  | .error e => (.error e, s)
  | .ok targetPayment =>
    match Pay s targetPayment.AccountID targetPayment.Amount
        targetPayment.Category freshID with
    | (.error e, s1) => (.error e, s1)
    | (.ok newPayment, s1) => (.ok newPayment, s1)

/-- `Service.FavoritePayment`: snapshot an existing payment as a favorite
under a fresh ID and the given name. -/
def FavoritePayment (s : Service) (paymentID : List Char) (name : List Char)
    (freshID : List Char) : Except Err Favorite × Service :=
  match FindPaymentByID s paymentID with
  | .error e => (.error e, s)
  | .ok payment =>
    let favorite : Favorite :=
      { ID := freshID, AccountID := payment.AccountID, Name := name,
        Amount := payment.Amount, Category := payment.Category }
    (.ok favorite, { s with favorites := s.favorites ++ [favorite] })

/-- `Service.FindFavoriteByID`: linear first-match lookup. -/
def FindFavoriteByID (s : Service) (favoriteID : List Char) :
    Except Err Favorite :=
  match s.favorites.find? (fun f => f.ID == favoriteID) with
  | some favorite => .ok favorite
  | none => .error .favoriteNotFound

/-- `Service.PayFromFavorite`: runs the favorite's parameters through
`Pay`. -/
def PayFromFavorite (s : Service) (favoriteID : List Char)
    (freshID : List Char) : Except Err Payment × Service :=
  match FindFavoriteByID s favoriteID with
  | .error e => (.error e, s)
  | .ok favorite =>
    match Pay s favorite.AccountID favorite.Amount favorite.Category freshID with
    | (.error e, s1) => (.error e, s1)
    | (.ok payment, s1) => (.ok payment, s1)

/-! ## The flat-file persistence format -/

/-- The character for a single decimal digit, as `strconv` renders it. -/
def digitChar (d : Nat) : Char :=
  match d with
  | 0 => '0' | 1 => '1' | 2 => '2' | 3 => '3' | 4 => '4'
  | 5 => '5' | 6 => '6' | 7 => '7' | 8 => '8' | 9 => '9'
  | _ => '*'

/-- Decimal digits of `n`, most significant first; `fuel`-structured
so that it is a structural recursion (`fuel > n` suffices). -/
def natDigitsAux : Nat → Nat → List Char
  | 0, _ => []
  | fuel + 1, n =>
    if n < 10 then [digitChar n]
    else natDigitsAux fuel (n / 10) ++ [digitChar (n % 10)]

/-- Decimal digits of `n`, most significant first. -/
def natDigits (n : Nat) : List Char := natDigitsAux (n + 1) n

/-- `strconv.FormatInt(v, 10)`: minus sign for negatives, then the
decimal digits of the absolute value. -/
def FormatInt (v : Int) : List Char :=
  if v < 0 then '-' :: natDigits v.natAbs else natDigits v.natAbs

/-- The digit value of `c`, or `none` if `c` is not a decimal digit. -/
def digitValue (c : Char) : Option Nat :=
  if 48 ≤ c.toNat ∧ c.toNat ≤ 57 then some (c.toNat - 48) else none

/-- Accumulate decimal digits left to right; `none` on a non-digit. -/
def parseDigitsAux (acc : Nat) : List Char → Option Nat
  | [] => some acc
  | c :: cs =>
    match digitValue c with
    | none => none
    | some d => parseDigitsAux (acc * 10 + d) cs

/-- A non-empty all-digit string, as a number; `none` otherwise. -/
def parseNatDigits (cs : List Char) : Option Nat :=
  if cs = [] then none else parseDigitsAux 0 cs

/-- The syntax phase of `strconv.ParseInt(s, 10, 64)`: an optional sign
followed by at least one decimal digit; `none` on a syntax error. -/
def parseIntSyntax : List Char → Option Int
  | [] => none
  | c :: rest =>
    if c = '-' then
      match parseNatDigits rest with
      | none => none
      | some n => some (-(n : Int))
    else if c = '+' then
      match parseNatDigits rest with
      | none => none
      | some n => some ((n : Int))
    else
      match parseNatDigits (c :: rest) with
      | none => none
      | some n => some ((n : Int))

/-- Largest `int64` value. -/
def int64Max : Int := 2 ^ 63 - 1

/-- Smallest `int64` value. -/
def int64Min : Int := -(2 ^ 63)

/-- `strconv.ParseInt(s, 10, 64)` with the error discarded, as the import
code does: `0` on a syntax error, the saturated bound on overflow. -/
def goParseInt (cs : List Char) : Int :=
  match parseIntSyntax cs with
  | none => 0
  | some v => if v < int64Min then int64Min else if int64Max < v then int64Max else v

/-- `strings.Split` on a one-character separator: the (always non-empty)
list of segments between occurrences of `sep`. -/
def splitSep (sep : Char) : List Char → List (List Char)
  | [] => [[]]
  | c :: rest =>
    let r := splitSep sep rest
    if c = sep then [] :: r else (c :: r.headD []) :: r.tail

/-- `Service.getAccounts`. -/
def Service.getAccounts (s : Service) : List Account := s.accounts

/-- The record `ExportToFile` writes for one account:
`"<ID>;<Phone>;<Balance>"`. -/
def AccountRecord (a : Account) : List Char :=
  FormatInt a.ID ++ [';'] ++ a.Phone ++ [';'] ++ FormatInt a.Balance

/-- `Service.ExportToFile`, modelled by the byte content it writes: the
loop appends each account's record followed by `"|"` to the file. -/
def ExportToFile (s : Service) : List Char :=
  s.getAccounts.foldl (fun written a => written ++ AccountRecord a ++ ['|']) []

/-- The record-processing loop of `Service.ImportFromFile` over the
`"|"`-split segments, carrying the accounts slice.  An empty segment hits
`return err` (with `err = nil` after a successful open), ending the loop
successfully; a segment with fewer than three `";"`-fields makes the Go
code index out of range (`item[2]`/`item[1]`), modelled as `none`. -/
def ImportRecords (accounts : List Account) :
    List (List Char) → Option (List Account)
  | [] => some accounts
  | line :: rest =>
    if line.length ≤ 0 then some accounts
    else
      match splitSep ';' line with
      | f0 :: f1 :: f2 :: _ =>
        ImportRecords
          (accounts ++ [{ ID := goParseInt f0, Phone := f1,
                          Balance := goParseInt f2 }]) rest
      | _ => none

/-- `Service.ImportFromFile`, modelled on the content read (open and read
assumed successful): split on `"|"` and append one account per record
until an empty record or end of input; `some` is a normal return (whose
Go error value is `nil` on every such path), `none` a runtime panic. -/
def ImportFromFile (s : Service) (content : List Char) : Option Service :=
  (ImportRecords s.accounts (splitSep '|' content)).map
    (fun accounts2 => { s with accounts := accounts2 })

/-- The segments the import loop actually processes: everything before
the first empty segment (or all of them if none is empty). -/
def recordsBeforeEmpty : List (List Char) → List (List Char)
  | [] => []
  | l :: ls => if l = [] then [] else l :: recordsBeforeEmpty ls

/-- The account a single well-formed record denotes, fields parsed the
way the import loop parses them; `none` if the record has fewer than
three fields (when the Go loop would panic). -/
def parseAccount (line : List Char) : Option Account :=
  match splitSep ';' line with
  | f0 :: f1 :: f2 :: _ =>
    some { ID := goParseInt f0, Phone := f1, Balance := goParseInt f2 }
  | _ => none

/-! ## Lemmas: decimal formatting and parsing round-trip -/

theorem parseDigitsAux_append (xs ys : List Char) (acc : Nat) :
    parseDigitsAux acc (xs ++ ys) =
      (parseDigitsAux acc xs).bind (fun a => parseDigitsAux a ys) := by
  induction xs generalizing acc with
  | nil => simp [parseDigitsAux]
  | cons c cs ih =>
    simp only [List.cons_append, parseDigitsAux]
    cases h : digitValue c with
    | none => simp
    | some d => simp [ih]

theorem digitValue_digitChar {d : Nat} (h : d < 10) :
    digitValue (digitChar d) = some d := by
  interval_cases d <;> decide

theorem digitChar_toNat {d : Nat} (h : d < 10) :
    48 ≤ (digitChar d).toNat ∧ (digitChar d).toNat ≤ 57 := by
  interval_cases d <;> decide

theorem natDigitsAux_ne_nil {fuel n : Nat} (h : n < fuel) :
    natDigitsAux fuel n ≠ [] := by
  match fuel with
  | 0 => omega
  | fuel + 1 =>
    simp only [natDigitsAux]
    split
    · simp
    · simp

theorem mem_natDigitsAux {fuel n : Nat} (h : n < fuel) {c : Char}
    (hc : c ∈ natDigitsAux fuel n) : 48 ≤ c.toNat ∧ c.toNat ≤ 57 := by
  induction fuel generalizing n with
  | zero => omega
  | succ fuel ih =>
    simp only [natDigitsAux] at hc
    by_cases h10 : n < 10
    · rw [if_pos h10] at hc
      simp only [List.mem_singleton] at hc
      subst hc
      exact digitChar_toNat h10
    · rw [if_neg h10] at hc
      have hdiv : n / 10 < n := Nat.div_lt_self (by omega) (by omega)
      rcases List.mem_append.mp hc with hc | hc
      · exact ih (by omega) hc
      · simp only [List.mem_singleton] at hc
        subst hc
        exact digitChar_toNat (Nat.mod_lt _ (by omega))

theorem parseDigitsAux_natDigitsAux {fuel n : Nat} (h : n < fuel) (acc : Nat) :
    parseDigitsAux acc (natDigitsAux fuel n) =
      some (acc * 10 ^ (natDigitsAux fuel n).length + n) := by
  induction fuel generalizing n acc with
  | zero => omega
  | succ fuel ih =>
    by_cases h10 : n < 10
    · simp only [natDigitsAux, if_pos h10]
      simp [parseDigitsAux, digitValue_digitChar h10]
    · have hdiv : n / 10 < n := Nat.div_lt_self (by omega) (by omega)
      have hf : n / 10 < fuel := by omega
      simp only [natDigitsAux, if_neg h10]
      rw [parseDigitsAux_append, ih hf]
      have hm : n % 10 < 10 := Nat.mod_lt _ (by omega)
      simp only [Option.some_bind, parseDigitsAux, digitValue_digitChar hm,
        List.length_append, List.length_singleton]
      congr 1
      have hmod : 10 * (n / 10) + n % 10 = n := Nat.div_add_mod n 10
      calc (acc * 10 ^ (natDigitsAux fuel (n / 10)).length + n / 10) * 10 + n % 10
          = acc * (10 ^ (natDigitsAux fuel (n / 10)).length * 10) +
              (10 * (n / 10) + n % 10) := by ring
        _ = acc * 10 ^ ((natDigitsAux fuel (n / 10)).length + 1) + n := by
              rw [hmod, pow_succ]

theorem parseNatDigits_natDigits (n : Nat) :
    parseNatDigits (natDigits n) = some n := by
  unfold parseNatDigits natDigits
  rw [if_neg (natDigitsAux_ne_nil (Nat.lt_succ_self n))]
  rw [parseDigitsAux_natDigitsAux (Nat.lt_succ_self n) 0]
  simp

theorem mem_natDigits {n : Nat} {c : Char} (hc : c ∈ natDigits n) :
    48 ≤ c.toNat ∧ c.toNat ≤ 57 :=
  mem_natDigitsAux (Nat.lt_succ_self n) hc

theorem natDigits_ne_nil (n : Nat) : natDigits n ≠ [] :=
  natDigitsAux_ne_nil (Nat.lt_succ_self n)

theorem mem_FormatInt {v : Int} {c : Char} (hc : c ∈ FormatInt v) :
    c = '-' ∨ (48 ≤ c.toNat ∧ c.toNat ≤ 57) := by
  unfold FormatInt at hc
  split at hc
  · rcases List.mem_cons.mp hc with h | h
    · exact Or.inl h
    · exact Or.inr (mem_natDigits h)
  · exact Or.inr (mem_natDigits hc)

theorem semicolon_not_mem_FormatInt (v : Int) : ';' ∉ FormatInt v := by
  intro hc
  rcases mem_FormatInt hc with h | h
  · exact absurd h (by decide)
  · revert h; decide

theorem pipe_not_mem_FormatInt (v : Int) : '|' ∉ FormatInt v := by
  intro hc
  rcases mem_FormatInt hc with h | h
  · exact absurd h (by decide)
  · revert h; decide

theorem FormatInt_ne_nil (v : Int) : FormatInt v ≠ [] := by
  unfold FormatInt
  split
  · simp
  · exact natDigits_ne_nil _

theorem parseIntSyntax_FormatInt (v : Int) :
    parseIntSyntax (FormatInt v) = some v := by
  unfold FormatInt
  by_cases hv : v < 0
  · rw [if_pos hv]
    simp only [parseIntSyntax, parseNatDigits_natDigits, reduceIte]
    congr 1
    obtain h | h := Int.natAbs_eq v <;> omega
  · rw [if_neg hv]
    obtain ⟨c, cs, heq⟩ : ∃ c cs, natDigits v.natAbs = c :: cs := by
      cases h : natDigits v.natAbs with
      | nil => exact absurd h (natDigits_ne_nil _)
      | cons c cs => exact ⟨c, cs, rfl⟩
    have hb := mem_natDigits (heq ▸ List.mem_cons_self c cs)
    have hcm : ¬ c = '-' := by intro h; subst h; revert hb; decide
    have hcp : ¬ c = '+' := by intro h; subst h; revert hb; decide
    rw [heq]
    simp only [parseIntSyntax, if_neg hcm, if_neg hcp, ← heq,
      parseNatDigits_natDigits]
    congr 1
    obtain h | h := Int.natAbs_eq v <;> omega

theorem goParseInt_FormatInt {v : Int} (h1 : int64Min ≤ v) (h2 : v ≤ int64Max) :
    goParseInt (FormatInt v) = v := by
  unfold int64Min at h1
  unfold int64Max at h2
  unfold goParseInt
  rw [parseIntSyntax_FormatInt]
  show (if v < int64Min then int64Min else if int64Max < v then int64Max else v) = v
  rw [if_neg (show ¬ v < int64Min by unfold int64Min; omega),
      if_neg (show ¬ int64Max < v by unfold int64Max; omega)]

theorem goParseInt_of_syntax_none {cs : List Char} (h : parseIntSyntax cs = none) :
    goParseInt cs = 0 := by
  unfold goParseInt
  rw [h]

/-! ## Lemmas: splitting on a separator -/

theorem splitSep_nil (sep : Char) : splitSep sep [] = [[]] := rfl

theorem splitSep_cons (sep c : Char) (rest : List Char) :
    splitSep sep (c :: rest) =
      if c = sep then [] :: splitSep sep rest
      else (c :: (splitSep sep rest).headD []) :: (splitSep sep rest).tail := rfl

theorem splitSep_not_mem {sep : Char} {l : List Char} (h : sep ∉ l) :
    splitSep sep l = [l] := by
  induction l with
  | nil => rfl
  | cons c rest ih =>
    have hc : ¬ c = sep := fun e => h (e ▸ List.mem_cons_self c rest)
    have hrest : sep ∉ rest := fun hr => h (List.mem_cons_of_mem _ hr)
    rw [splitSep_cons, if_neg hc, ih hrest]
    rfl

theorem splitSep_append {sep : Char} {l : List Char} (h : sep ∉ l)
    (r : List Char) :
    splitSep sep (l ++ sep :: r) = l :: splitSep sep r := by
  induction l with
  | nil => rw [List.nil_append, splitSep_cons, if_pos rfl]
  | cons c rest ih =>
    have hc : ¬ c = sep := fun e => h (e ▸ List.mem_cons_self c rest)
    have hrest : sep ∉ rest := fun hr => h (List.mem_cons_of_mem _ hr)
    rw [List.cons_append, splitSep_cons, if_neg hc, ih hrest]
    rfl

/-! ## Lemmas: the export format and the import loop -/

theorem AccountRecord_ne_nil (a : Account) : AccountRecord a ≠ [] := by
  simp [AccountRecord]

theorem pipe_not_mem_AccountRecord {a : Account} (h : '|' ∉ a.Phone) :
    '|' ∉ AccountRecord a := by
  intro hc
  simp only [AccountRecord, List.mem_append, List.mem_singleton] at hc
  rcases hc with (((hc | hc) | hc) | hc) | hc
  · exact pipe_not_mem_FormatInt _ hc
  · exact absurd hc (by decide)
  · exact h hc
  · exact absurd hc (by decide)
  · exact pipe_not_mem_FormatInt _ hc

theorem splitSep_AccountRecord {a : Account} (h : ';' ∉ a.Phone) :
    splitSep ';' (AccountRecord a) =
      [FormatInt a.ID, a.Phone, FormatInt a.Balance] := by
  unfold AccountRecord
  have e : FormatInt a.ID ++ [';'] ++ a.Phone ++ [';'] ++ FormatInt a.Balance
      = FormatInt a.ID ++ ';' :: (a.Phone ++ ';' :: FormatInt a.Balance) := by
    simp [List.append_assoc]
  rw [e, splitSep_append (semicolon_not_mem_FormatInt _),
      splitSep_append h, splitSep_not_mem (semicolon_not_mem_FormatInt _)]

theorem ExportToFile_eq_join (s : Service) :
    ExportToFile s = (s.accounts.map (fun a => AccountRecord a ++ ['|'])).flatten := by
  have gen : ∀ (l : List Account) (init : List Char),
      l.foldl (fun written a => written ++ AccountRecord a ++ ['|']) init =
        init ++ (l.map (fun a => AccountRecord a ++ ['|'])).flatten := by
    intro l
    induction l with
    | nil => intro init; simp
    | cons a as ih =>
      intro init
      rw [List.foldl_cons, ih]
      simp [List.append_assoc]
  simpa [ExportToFile, Service.getAccounts] using gen s.accounts []

theorem splitSep_pipe_join {accs : List Account}
    (h : ∀ a ∈ accs, '|' ∉ a.Phone) :
    splitSep '|' ((accs.map (fun a => AccountRecord a ++ ['|'])).flatten) =
      accs.map AccountRecord ++ [[]] := by
  induction accs with
  | nil => simp [splitSep_nil]
  | cons a as ih =>
    simp only [List.map_cons, List.flatten_cons]
    rw [List.append_assoc, List.singleton_append,
      splitSep_append (pipe_not_mem_AccountRecord (h a (List.mem_cons_self _ _))),
      ih (fun a' ha' => h a' (List.mem_cons_of_mem _ ha'))]
    simp

theorem ImportRecords_nil (accounts : List Account) :
    ImportRecords accounts [] = some accounts := rfl

theorem ImportRecords_cons_empty (accounts : List Account)
    (rest : List (List Char)) :
    ImportRecords accounts ([] :: rest) = some accounts := rfl

theorem ImportRecords_cons_fields {line : List Char} (hne : line ≠ [])
    {f0 f1 f2 : List Char} {fs : List (List Char)}
    (hsp : splitSep ';' line = f0 :: f1 :: f2 :: fs)
    (accounts : List Account) (rest : List (List Char)) :
    ImportRecords accounts (line :: rest) =
      ImportRecords
        (accounts ++ [{ ID := goParseInt f0, Phone := f1,
                        Balance := goParseInt f2 }]) rest := by
  have hlen : ¬ line.length ≤ 0 := by
    cases line
    · exact absurd rfl hne
    · simp
  simp only [ImportRecords, if_neg hlen, hsp]

theorem ImportRecords_exported {l : List Account}
    (hp : ∀ a ∈ l, ';' ∉ a.Phone)
    (hr : ∀ a ∈ l, int64Min ≤ a.ID ∧ a.ID ≤ int64Max ∧
      int64Min ≤ a.Balance ∧ a.Balance ≤ int64Max)
    (accs : List Account) :
    ImportRecords accs (l.map AccountRecord ++ [[]]) = some (accs ++ l) := by
  induction l generalizing accs with
  | nil => simp [ImportRecords_cons_empty]
  | cons a as ih =>
    have hmem := List.mem_cons_self a as
    rw [List.map_cons, List.cons_append,
      ImportRecords_cons_fields (AccountRecord_ne_nil a)
        (splitSep_AccountRecord (hp a hmem))]
    have hra := hr a hmem
    rw [goParseInt_FormatInt hra.1 hra.2.1,
      goParseInt_FormatInt hra.2.2.1 hra.2.2.2]
    have he : ({ ID := a.ID, Phone := a.Phone, Balance := a.Balance } : Account)
        = a := rfl
    rw [he, ih (fun a' ha' => hp a' (List.mem_cons_of_mem _ ha'))
      (fun a' ha' => hr a' (List.mem_cons_of_mem _ ha')) (accs ++ [a])]
    simp

theorem recordsBeforeEmpty_cons_ne {line : List Char} (hne : line ≠ [])
    (ls : List (List Char)) :
    recordsBeforeEmpty (line :: ls) = line :: recordsBeforeEmpty ls := by
  simp [recordsBeforeEmpty, hne]

theorem ImportRecords_wellformed (lines : List (List Char)) :
    ∀ accs : List Account,
    (∀ line ∈ recordsBeforeEmpty lines, 3 ≤ (splitSep ';' line).length) →
    ImportRecords accs lines =
      some (accs ++ (recordsBeforeEmpty lines).filterMap parseAccount) := by
  induction lines with
  | nil => intro accs _; simp [ImportRecords_nil, recordsBeforeEmpty]
  | cons line ls ih =>
    intro accs h
    by_cases hline : line = []
    · subst hline
      simp [ImportRecords_cons_empty, recordsBeforeEmpty]
    · have hmem : line ∈ recordsBeforeEmpty (line :: ls) := by
        rw [recordsBeforeEmpty_cons_ne hline]
        exact List.mem_cons_self _ _
      have h3 := h line hmem
      match hsp : splitSep ';' line with
      | [] => rw [hsp] at h3; simp at h3
      | [f0] => rw [hsp] at h3; simp at h3
      | [f0, f1] => rw [hsp] at h3; simp at h3
      | f0 :: f1 :: f2 :: fs =>
        rw [ImportRecords_cons_fields hline hsp,
          ih _ (fun l' hl' => h l' (by
            rw [recordsBeforeEmpty_cons_ne hline]
            exact List.mem_cons_of_mem _ hl'))]
        rw [recordsBeforeEmpty_cons_ne hline]
        have hpa : parseAccount line =
            some { ID := goParseInt f0, Phone := f1, Balance := goParseInt f2 } := by
          unfold parseAccount
          rw [hsp]
        rw [List.filterMap_cons, hpa]
        simp

theorem ImportRecords_nonneg (lines : List (List Char)) :
    ∀ accs accs' : List Account,
    (∀ line ∈ lines, ∀ f0 f1 f2 fs, splitSep ';' line = f0 :: f1 :: f2 :: fs →
      0 ≤ goParseInt f2) →
    ImportRecords accs lines = some accs' →
    (∀ a ∈ accs, 0 ≤ a.Balance) → ∀ a ∈ accs', 0 ≤ a.Balance := by
  induction lines with
  | nil =>
    intro accs accs' _ himp hacc
    rw [ImportRecords_nil] at himp
    cases himp
    exact hacc
  | cons line ls ih =>
    intro accs accs' h himp hacc
    by_cases hline : line = []
    · subst hline
      rw [ImportRecords_cons_empty] at himp
      cases himp
      exact hacc
    · match hsp : splitSep ';' line with
      | [] =>
        have hlen : ¬ line.length ≤ 0 := by
          cases line
          · exact absurd rfl hline
          · simp
        simp only [ImportRecords, if_neg hlen, hsp] at himp
        exact Option.noConfusion himp
      | [f0] =>
        have hlen : ¬ line.length ≤ 0 := by
          cases line
          · exact absurd rfl hline
          · simp
        simp only [ImportRecords, if_neg hlen, hsp] at himp
        exact Option.noConfusion himp
      | [f0, f1] =>
        have hlen : ¬ line.length ≤ 0 := by
          cases line
          · exact absurd rfl hline
          · simp
        simp only [ImportRecords, if_neg hlen, hsp] at himp
        exact Option.noConfusion himp
      | f0 :: f1 :: f2 :: fs =>
        rw [ImportRecords_cons_fields hline hsp] at himp
        refine ih _ _ (fun l' hl' => h l' (List.mem_cons_of_mem _ hl')) himp ?_
        intro a ha
        rcases List.mem_append.mp ha with ha | ha
        · exact hacc a ha
        · rcases List.mem_singleton.mp ha with rfl
          exact h line (List.mem_cons_self _ _) f0 f1 f2 fs hsp

/-! ## Lemmas: updating the first match -/

theorem mem_updateFirst {α : Type} {p : α → Bool} {f : α → α} {l : List α}
    {y : α} (h : y ∈ updateFirst p f l) :
    y ∈ l ∨ ∃ x, List.find? p l = some x ∧ y = f x := by
  induction l with
  | nil => simp [updateFirst] at h
  | cons a as ih =>
    simp only [updateFirst] at h
    cases hp : p a with
    | true =>
      rw [if_pos hp] at h
      rcases List.mem_cons.mp h with h | h
      · exact Or.inr ⟨a, List.find?_cons_of_pos _ hp, h⟩
      · exact Or.inl (List.mem_cons_of_mem _ h)
    | false =>
      rw [if_neg (by simp [hp])] at h
      rcases List.mem_cons.mp h with h | h
      · exact Or.inl (h ▸ List.mem_cons_self _ _)
      · rcases ih h with h | ⟨x, hf, hy⟩
        · exact Or.inl (List.mem_cons_of_mem _ h)
        · exact Or.inr ⟨x, by rw [List.find?_cons_of_neg _ (by simp [hp])]; exact hf, hy⟩

theorem find?_updateFirst {α : Type} (p : α → Bool) (f : α → α) (l : List α)
    (hpf : ∀ x, p (f x) = p x) :
    List.find? p (updateFirst p f l) = (List.find? p l).map f := by
  induction l with
  | nil => simp [updateFirst]
  | cons a as ih =>
    cases hp : p a with
    | true =>
      simp only [updateFirst, if_pos hp]
      rw [List.find?_cons_of_pos _ (by rw [hpf]; exact hp),
        List.find?_cons_of_pos _ hp]
      rfl
    | false =>
      simp only [updateFirst, if_neg (by simp [hp] : ¬ (p a = true))]
      rw [List.find?_cons_of_neg _ (by simp [hp]),
        List.find?_cons_of_neg _ (by simp [hp])]
      exact ih

/-! ## Lemmas: the lookups -/

theorem FindAccountByID_ok {s : Service} {accountID : Int} {a : Account}
    (h : FindAccountByID s accountID = .ok a) :
    s.accounts.find? (fun x => x.ID == accountID) = some a := by
  unfold FindAccountByID at h
  cases hf : s.accounts.find? (fun x => x.ID == accountID) with
  | none => rw [hf] at h; exact Except.noConfusion h
  | some y => rw [hf] at h; cases h; rfl

theorem FindPaymentByID_ok {s : Service} {paymentID : List Char} {p : Payment}
    (h : FindPaymentByID s paymentID = .ok p) :
    s.payments.find? (fun x => x.ID == paymentID) = some p := by
  unfold FindPaymentByID at h
  cases hf : s.payments.find? (fun x => x.ID == paymentID) with
  | none => rw [hf] at h; exact Except.noConfusion h
  | some y => rw [hf] at h; cases h; rfl

/-! ## The non-negative-balance invariant and its preservation -/

/-- The inductive invariant: balances are non-negative and all recorded
payment amounts are positive. -/
def Inv (s : Service) : Prop :=
  (∀ a ∈ s.accounts, 0 ≤ a.Balance) ∧ (∀ p ∈ s.payments, 0 < p.Amount)

theorem RegisterAccount_inv (s : Service) (phone : List Char) (h : Inv s) :
    Inv (RegisterAccount s phone).2 := by
  unfold RegisterAccount
  split
  · exact h
  · refine ⟨?_, h.2⟩
    intro a ha
    rcases List.mem_append.mp ha with ha | ha
    · exact h.1 a ha
    · rcases List.mem_singleton.mp ha with rfl
      exact le_refl 0

theorem Deposit_inv (s : Service) (accountID : Int) (amount : Money)
    (h : Inv s) : Inv (Deposit s accountID amount).2 := by
  by_cases hamt : amount ≤ 0
  · unfold Deposit
    rw [if_pos hamt]
    exact h
  · unfold Deposit
    rw [if_neg hamt]
    cases hf : s.accounts.find? (fun a => a.ID == accountID) with
    | none => exact h
    | some y =>
      refine ⟨?_, h.2⟩
      intro a ha
      rcases mem_updateFirst ha with ha | ⟨x, hfind, rfl⟩
      · exact h.1 a ha
      · have hx := h.1 x (List.mem_of_find?_eq_some hfind)
        show 0 ≤ x.Balance + amount
        exact add_nonneg hx (le_of_lt (not_le.mp hamt))

theorem Pay_accounts_nonneg (s : Service) (accountID : Int) (amount : Money)
    (category freshID : List Char)
    (h : ∀ a ∈ s.accounts, 0 ≤ a.Balance) :
    ∀ a ∈ (Pay s accountID amount category freshID).2.accounts,
      0 ≤ a.Balance := by
  unfold Pay
  split
  · exact h
  · split
    · exact h
    · rename_i account heq
      split
      · exact h
      · rename_i hlt
        intro a ha
        rcases mem_updateFirst ha with ha | ⟨x, hfind, rfl⟩
        · exact h a ha
        · have hxa : account = x :=
            Option.some.inj ((FindAccountByID_ok heq).symm.trans hfind)
          show 0 ≤ x.Balance - amount
          rw [← hxa]
          exact sub_nonneg.mpr (not_lt.mp hlt)

theorem Pay_inv (s : Service) (accountID : Int) (amount : Money)
    (category freshID : List Char) (h : Inv s) :
    Inv (Pay s accountID amount category freshID).2 := by
  refine ⟨Pay_accounts_nonneg s accountID amount category freshID h.1, ?_⟩
  unfold Pay
  split
  · exact h.2
  · split
    · exact h.2
    · split
      · exact h.2
      · rename_i hamt _ _ _ _
        intro p hp
        rcases List.mem_append.mp hp with hp | hp
        · exact h.2 p hp
        · rcases List.mem_singleton.mp hp with rfl
          show 0 < amount
          exact not_le.mp hamt

theorem Reject_inv (s : Service) (paymentID : List Char) (h : Inv s) :
    Inv (Reject s paymentID).2 := by
  unfold Reject
  split
  · exact h
  · rename_i payment hpeq
    split
    · exact h
    · constructor
      · intro a ha
        rcases mem_updateFirst ha with ha | ⟨x, hfind, rfl⟩
        · exact h.1 a ha
        · have hx := h.1 x (List.mem_of_find?_eq_some hfind)
          have hpa := h.2 payment
            (List.mem_of_find?_eq_some (FindPaymentByID_ok hpeq))
          show 0 ≤ x.Balance + payment.Amount
          exact add_nonneg hx (le_of_lt hpa)
      · intro p hp
        rcases mem_updateFirst hp with hp | ⟨x, hfind, rfl⟩
        · exact h.2 p hp
        · exact h.2 x (List.mem_of_find?_eq_some hfind)

theorem Repeat_inv (s : Service) (paymentID freshID : List Char) (h : Inv s) :
    Inv (Repeat s paymentID freshID).2 := by
  unfold Repeat
  split
  · exact h
  · rename_i targetPayment hpeq
    split
    · rename_i e s1 heq
      have hi := Pay_inv s targetPayment.AccountID targetPayment.Amount
        targetPayment.Category freshID h
      rw [heq] at hi
      exact hi
    · rename_i p s1 heq
      have hi := Pay_inv s targetPayment.AccountID targetPayment.Amount
        targetPayment.Category freshID h
      rw [heq] at hi
      exact hi

theorem FavoritePayment_inv (s : Service) (paymentID name freshID : List Char)
    (h : Inv s) : Inv (FavoritePayment s paymentID name freshID).2 := by
  unfold FavoritePayment
  split
  · exact h
  · exact ⟨h.1, h.2⟩

theorem PayFromFavorite_inv (s : Service) (favoriteID freshID : List Char)
    (h : Inv s) : Inv (PayFromFavorite s favoriteID freshID).2 := by
  unfold PayFromFavorite
  split
  · exact h
  · rename_i favorite hfeq
    split
    · rename_i e s1 heq
      have hi := Pay_inv s favorite.AccountID favorite.Amount
        favorite.Category freshID h
      rw [heq] at hi
      exact hi
    · rename_i p s1 heq
      have hi := Pay_inv s favorite.AccountID favorite.Amount
        favorite.Category freshID h
      rw [heq] at hi
      exact hi

theorem AddAccountWithBalance_inv (s : Service) (phone : List Char)
    (balance : Money) (h : Inv s) :
    Inv (AddAccountWithBalance s phone balance).2 := by
  unfold AddAccountWithBalance
  split
  · rename_i e s1 heq
    have hi := RegisterAccount_inv s phone h
    rw [heq] at hi
    exact hi
  · rename_i account s1 heq
    have hi := RegisterAccount_inv s phone h
    rw [heq] at hi
    split
    · rename_i e s2 heq2
      have hd := Deposit_inv s1 account.ID balance hi
      rw [heq2] at hd
      exact hd
    · rename_i u s2 heq2
      have hd := Deposit_inv s1 account.ID balance hi
      rw [heq2] at hd
      exact hd

/-- The restriction on imported file contents under which the invariant
is preserved: every record with at least three fields has a balance field
that parses to a non-negative value. -/
def ImportOK (content : List Char) : Prop :=
  ∀ line ∈ splitSep '|' content, ∀ f0 f1 f2 : List Char,
    ∀ fs : List (List Char),
    splitSep ';' line = f0 :: f1 :: f2 :: fs → 0 ≤ goParseInt f2

theorem ImportFromFile_inv (s : Service) (content : List Char) (s' : Service)
    (hok : ImportOK content) (himp : ImportFromFile s content = some s')
    (h : Inv s) : Inv s' := by
  unfold ImportFromFile at himp
  rcases Option.map_eq_some'.mp himp with ⟨accs', hrec, rfl⟩
  exact ⟨fun a ha => ImportRecords_nonneg _ _ _ hok hrec h.1 a ha, h.2⟩

/-! ## The reachable states of a service -/

/-- One service operation, viewed as a state transition.  `ok` restricts
which file contents an `ImportFromFile` step may read (`fun _ => True`
places no restriction).  The fresh payment/favorite IDs are arbitrary. -/
inductive Step (ok : List Char → Prop) : Service → Service → Prop where
  | register (s : Service) (phone : List Char) :
      Step ok s (RegisterAccount s phone).2
  | deposit (s : Service) (accountID : Int) (amount : Money) :
      Step ok s (Deposit s accountID amount).2
  | pay (s : Service) (accountID : Int) (amount : Money)
      (category freshID : List Char) :
      Step ok s (Pay s accountID amount category freshID).2
  | reject (s : Service) (paymentID : List Char) :
      Step ok s (Reject s paymentID).2
  | repeatStep (s : Service) (paymentID freshID : List Char) :
      Step ok s (Repeat s paymentID freshID).2
  | favoritePayment (s : Service) (paymentID name freshID : List Char) :
      Step ok s (FavoritePayment s paymentID name freshID).2
  | payFromFavorite (s : Service) (favoriteID freshID : List Char) :
      Step ok s (PayFromFavorite s favoriteID freshID).2
  | addAccountWithBalance (s : Service) (phone : List Char) (balance : Money) :
      Step ok s (AddAccountWithBalance s phone balance).2
  | exportToFile (s : Service) : Step ok s s
  | importFromFile (s s' : Service) (content : List Char) :
      ok content → ImportFromFile s content = some s' → Step ok s s'

/-- States reachable from the zero-valued service by the operations. -/
inductive Reachable (ok : List Char → Prop) : Service → Prop where
  | empty : Reachable ok emptyService
  | step {s s' : Service} :
      Reachable ok s → Step ok s s' → Reachable ok s'

theorem reachable_inv {s : Service} (h : Reachable ImportOK s) : Inv s := by
  induction h with
  | empty =>
    exact ⟨fun a ha => absurd ha (List.not_mem_nil a),
           fun p hp => absurd hp (List.not_mem_nil p)⟩
  | step hr hstep ih =>
    cases hstep with
    | register phone => exact RegisterAccount_inv _ phone ih
    | deposit accountID amount => exact Deposit_inv _ accountID amount ih
    | pay accountID amount category freshID =>
        exact Pay_inv _ accountID amount category freshID ih
    | reject paymentID => exact Reject_inv _ paymentID ih
    | repeatStep paymentID freshID => exact Repeat_inv _ paymentID freshID ih
    | favoritePayment paymentID name freshID =>
        exact FavoritePayment_inv _ paymentID name freshID ih
    | payFromFavorite favoriteID freshID =>
        exact PayFromFavorite_inv _ favoriteID freshID ih
    | addAccountWithBalance phone balance =>
        exact AddAccountWithBalance_inv _ phone balance ih
    | exportToFile => exact ih
    | importFromFile =>
        rename_i content hok himp
        exact ImportFromFile_inv _ content _ hok himp ih

/-! ## Lemmas: what one `Reject` call does -/

/-- The state produced by a successful `Reject` of the payment `p` found
under `paymentID`: the payment marked `Failed`, the account credited. -/
def rejectedState (s : Service) (paymentID : List Char) (p : Payment) : Service :=
  { s with
      payments :=
        updateFirst (fun q => q.ID == paymentID)
          (fun q => { q with Status := PaymentStatus.fail }) s.payments,
      accounts :=
        updateFirst (fun x => x.ID == p.AccountID)
          (fun x => { x with Balance := x.Balance + p.Amount }) s.accounts }

theorem rejectedState_payments (s : Service) (paymentID : List Char)
    (p : Payment) :
    (rejectedState s paymentID p).payments =
      updateFirst (fun q => q.ID == paymentID)
        (fun q => { q with Status := PaymentStatus.fail }) s.payments := rfl

theorem rejectedState_accounts (s : Service) (paymentID : List Char)
    (p : Payment) :
    (rejectedState s paymentID p).accounts =
      updateFirst (fun x => x.ID == p.AccountID)
        (fun x => { x with Balance := x.Balance + p.Amount }) s.accounts := rfl

theorem Reject_eq (s : Service) (paymentID : List Char) {p : Payment}
    {a : Account} (hp : FindPaymentByID s paymentID = .ok p)
    (ha : FindAccountByID s p.AccountID = .ok a) :
    Reject s paymentID = (.ok (), rejectedState s paymentID p) := by
  simp only [Reject, hp, ha]
  rfl

theorem FindPaymentByID_eq_find (s : Service) (paymentID : List Char) :
    FindPaymentByID s paymentID =
      match s.payments.find? (fun q => q.ID == paymentID) with
      | some payment => .ok payment
      | none => .error .paymentNotFound := rfl

theorem FindAccountByID_eq_find (s : Service) (accountID : Int) :
    FindAccountByID s accountID =
      match s.accounts.find? (fun x => x.ID == accountID) with
      | some account => .ok account
      | none => .error .accountNotFound := rfl

theorem FindPaymentByID_rejectedState (s : Service) (paymentID : List Char)
    {p : Payment} (hp : FindPaymentByID s paymentID = .ok p) (q : Payment) :
    FindPaymentByID (rejectedState s paymentID q) paymentID =
      .ok { p with Status := PaymentStatus.fail } := by
  rw [FindPaymentByID_eq_find, rejectedState_payments,
    find?_updateFirst (fun q => q.ID == paymentID)
      (fun q => { q with Status := PaymentStatus.fail }) s.payments
      (fun x => rfl),
    FindPaymentByID_ok hp]
  rfl

theorem FindAccountByID_rejectedState (s : Service) (paymentID : List Char)
    {p : Payment} {a : Account}
    (ha : FindAccountByID s p.AccountID = .ok a) :
    FindAccountByID (rejectedState s paymentID p) p.AccountID =
      .ok { a with Balance := a.Balance + p.Amount } := by
  rw [FindAccountByID_eq_find, rejectedState_accounts,
    find?_updateFirst (fun x => x.ID == p.AccountID)
      (fun x => { x with Balance := x.Balance + p.Amount }) s.accounts
      (fun x => rfl),
    FindAccountByID_ok ha]
  rfl

/-! ## Lemmas: what `RegisterAccount` does -/

theorem RegisterAccount_dup {s : Service} {phone : List Char}
    (h : ∃ a ∈ s.accounts, a.Phone = phone) :
    RegisterAccount s phone = (.error .phoneRegistered, s) := by
  unfold RegisterAccount
  split
  · rfl
  · rename_i hc
    exfalso
    rcases h with ⟨a, ha, hph⟩
    exact hc (List.any_eq_true.mpr ⟨a, ha, beq_iff_eq.mpr hph⟩)

theorem RegisterAccount_fresh {s : Service} {phone : List Char}
    (h : ¬ ∃ a ∈ s.accounts, a.Phone = phone) :
    RegisterAccount s phone =
      (.ok ⟨s.nextAccountID + 1, phone, 0⟩,
       ⟨s.nextAccountID + 1,
        s.accounts ++ [⟨s.nextAccountID + 1, phone, 0⟩],
        s.payments, s.favorites⟩) := by
  unfold RegisterAccount
  split
  · rename_i hc
    exfalso
    rcases List.any_eq_true.mp hc with ⟨a, ha, hph⟩
    exact h ⟨a, ha, beq_iff_eq.mp hph⟩
  · rfl

/-! ## The claims -/

/-- C1 (amended): when the target account's balance is non-negative (as
in every state satisfying the intended invariant) and `amount` exceeds
that balance, `Pay` returns `NotEnoughBalance` and leaves the whole
state — accounts and payments — unchanged; and whenever all balances are
non-negative before a `Pay` call, they are non-negative after it, so
`Pay` never makes any balance negative. -/
theorem claim1_pay_insufficient_guard (s : Service) (accountID : Int)
    (amount : Money) (category freshID : List Char) :
    (∀ account, FindAccountByID s accountID = .ok account →
      0 ≤ account.Balance → account.Balance < amount →
      Pay s accountID amount category freshID =
        (.error .notEnoughBalance, s)) ∧
    ((∀ a ∈ s.accounts, 0 ≤ a.Balance) →
      ∀ a ∈ (Pay s accountID amount category freshID).2.accounts,
        0 ≤ a.Balance) := by
  constructor
  · intro account hfind hb hlt
    unfold Pay
    rw [if_neg (not_le.mpr (lt_of_le_of_lt hb hlt))]
    simp only [hfind]
    rw [if_pos hlt]
  · exact Pay_accounts_nonneg s accountID amount category freshID

/-- C1, witness: with one account of balance `5`, paying `7` fails with
`NotEnoughBalance` and changes nothing, and the balance stays
non-negative. -/
theorem claim1_witness :
    Pay ⟨1, [⟨1, ['p'], 5⟩], [], []⟩ 1 7 [] [] =
      (.error .notEnoughBalance, ⟨1, [⟨1, ['p'], 5⟩], [], []⟩) ∧
    0 ≤ (Account.mk 1 ['p'] 5).Balance :=
  ⟨(claim1_pay_insufficient_guard ⟨1, [⟨1, ['p'], 5⟩], [], []⟩ 1 7 [] []).1
      ⟨1, ['p'], 5⟩ rfl (by decide) (by decide),
   (claim1_pay_insufficient_guard ⟨1, [⟨1, ['p'], 5⟩], [], []⟩ 1 7 [] []).2
      (by decide) ⟨1, ['p'], 5⟩ (by decide)⟩

/-- C1, counterexample to the claim as stated: in a state whose account
has balance `-5` (reachable via `ImportFromFile`), `Pay` with amount
`-1 > -5` returns `AmountMustBePositive`, not `NotEnoughBalance`. -/
theorem claim1_counterexample :
    ((-5 : Int) < -1) ∧
    (Pay ⟨1, [⟨1, ['p'], -5⟩], [], []⟩ 1 (-1) [] []).1 =
      .error .amountMustBePositive ∧
    Err.amountMustBePositive ≠ Err.notEnoughBalance :=
  ⟨by decide, rfl, by decide⟩

/-- C2 (confirmed): if the payment under `paymentID` is found as `p` and
the account under `p.AccountID` as `a`, then `Reject` succeeds, marks the
found payment `Failed`, and credits the found account by exactly
`p.Amount` — with no hypothesis on `p`'s prior status; rejecting a second
time credits the account again, to `a.Balance + 2 * p.Amount`. -/
theorem claim2_reject_refund (s : Service) (paymentID : List Char)
    (p : Payment) (a : Account)
    (hp : FindPaymentByID s paymentID = .ok p)
    (ha : FindAccountByID s p.AccountID = .ok a) :
    (Reject s paymentID).1 = .ok () ∧
    FindPaymentByID (Reject s paymentID).2 paymentID =
      .ok { p with Status := PaymentStatus.fail } ∧
    FindAccountByID (Reject s paymentID).2 p.AccountID =
      .ok { a with Balance := a.Balance + p.Amount } ∧
    (Reject (Reject s paymentID).2 paymentID).1 = .ok () ∧
    FindAccountByID (Reject (Reject s paymentID).2 paymentID).2 p.AccountID =
      .ok { a with Balance := a.Balance + 2 * p.Amount } := by
  have h1 := Reject_eq s paymentID hp ha
  have e1 : (Reject s paymentID).2 = rejectedState s paymentID p := by
    rw [h1]
  have hp1 : FindPaymentByID (rejectedState s paymentID p) paymentID =
      .ok { p with Status := PaymentStatus.fail } :=
    FindPaymentByID_rejectedState s paymentID hp p
  have ha1 : FindAccountByID (rejectedState s paymentID p)
      ({ p with Status := PaymentStatus.fail } : Payment).AccountID =
      .ok { a with Balance := a.Balance + p.Amount } :=
    FindAccountByID_rejectedState s paymentID ha
  have h2 := Reject_eq (rejectedState s paymentID p) paymentID hp1 ha1
  have e2 : (Reject (rejectedState s paymentID p) paymentID).2 =
      rejectedState (rejectedState s paymentID p) paymentID
        { p with Status := PaymentStatus.fail } := by
    rw [h2]
  have ha2 := FindAccountByID_rejectedState (rejectedState s paymentID p)
    paymentID ha1
  refine ⟨by rw [h1], ?_, ?_, ?_, ?_⟩
  · rw [e1]
    exact hp1
  · rw [e1]
    exact ha1
  · rw [e1, h2]
  · rw [e1, e2]
    refine ha2.trans ?_
    congr 1
    show Account.mk a.ID a.Phone (a.Balance + p.Amount + p.Amount) =
      Account.mk a.ID a.Phone (a.Balance + 2 * p.Amount)
    congr 1
    ring

/-- C2, witness: one account with balance `0`, one `InProgress` payment
of amount `7`; two `Reject` calls bring the looked-up balance to
`0 + 2 * 7`. -/
theorem claim2_witness :
    (Reject ⟨1, [⟨1, ['p'], 0⟩],
        [⟨['x'], 1, 7, ['f'], PaymentStatus.inProgress⟩], []⟩ ['x']).1 =
      .ok () ∧
    FindAccountByID
      (Reject (Reject ⟨1, [⟨1, ['p'], 0⟩],
          [⟨['x'], 1, 7, ['f'], PaymentStatus.inProgress⟩], []⟩ ['x']).2
        ['x']).2 1 = .ok ⟨1, ['p'], 0 + 2 * 7⟩ := by
  have h := claim2_reject_refund
    ⟨1, [⟨1, ['p'], 0⟩], [⟨['x'], 1, 7, ['f'], PaymentStatus.inProgress⟩], []⟩
    ['x'] ⟨['x'], 1, 7, ['f'], PaymentStatus.inProgress⟩ ⟨1, ['p'], 0⟩ rfl rfl
  exact ⟨h.1, h.2.2.2.2⟩

/-- C4 (confirmed): the bytes `ExportToFile` writes are the
concatenation, in collection order, of each account's record
`"<ID>;<Phone>;<Balance>"` followed by `"|"` — so every record carries a
trailing separator and nothing stands between the last `"|"` and the end
of the file. -/
theorem claim4_export_format (s : Service) :
    ExportToFile s =
      (s.accounts.map (fun a => AccountRecord a ++ ['|'])).flatten :=
  ExportToFile_eq_join s

/-- C7 (confirmed): `RegisterAccount` fails with `PhoneAlreadyRegistered`
and leaves the state untouched when the phone exists; otherwise it
increments the counter, appends the account with the new counter value as
ID and balance `0`, and returns it — and on the empty service the first
ID handed out is `1`. -/
theorem claim7_register (s : Service) (phone : List Char) :
    ((∃ a ∈ s.accounts, a.Phone = phone) →
      RegisterAccount s phone = (.error .phoneRegistered, s)) ∧
    ((¬ ∃ a ∈ s.accounts, a.Phone = phone) →
      RegisterAccount s phone =
        (.ok ⟨s.nextAccountID + 1, phone, 0⟩,
         ⟨s.nextAccountID + 1,
          s.accounts ++ [⟨s.nextAccountID + 1, phone, 0⟩],
          s.payments, s.favorites⟩)) ∧
    (RegisterAccount emptyService phone).1 = .ok ⟨1, phone, 0⟩ := by
  refine ⟨RegisterAccount_dup, RegisterAccount_fresh, ?_⟩
  have h := @RegisterAccount_fresh emptyService phone (by simp [emptyService])
  rw [h]
  rfl

/-- C7, witness: registering `['p']` twice from the empty service: the
first call creates account `1` with balance `0`, the second fails with
`PhoneAlreadyRegistered` and changes nothing. -/
theorem claim7_witness :
    RegisterAccount ⟨1, [⟨1, ['p'], 0⟩], [], []⟩ ['p'] =
      (.error .phoneRegistered, ⟨1, [⟨1, ['p'], 0⟩], [], []⟩) ∧
    RegisterAccount ⟨1, [⟨1, ['p'], 0⟩], [], []⟩ ['q'] =
      (.ok ⟨2, ['q'], 0⟩,
       ⟨2, [⟨1, ['p'], 0⟩, ⟨2, ['q'], 0⟩], [], []⟩) ∧
    (RegisterAccount emptyService ['p']).1 = .ok ⟨1, ['p'], 0⟩ :=
  ⟨(claim7_register ⟨1, [⟨1, ['p'], 0⟩], [], []⟩ ['p']).1
      ⟨⟨1, ['p'], 0⟩, by decide, rfl⟩,
   (claim7_register ⟨1, [⟨1, ['p'], 0⟩], [], []⟩ ['q']).2.1 (by decide),
   (claim7_register emptyService ['p']).2.2⟩

/-- C3 (confirmed): for accounts whose phones contain neither `';'` nor
`'|'` and whose fields lie in `int64` range (as every Go value does),
exporting and re-importing into a fresh service reproduces the accounts
exactly — same IDs, phones, balances, same order. -/
theorem claim3_roundtrip (s : Service)
    (hphone : ∀ a ∈ s.accounts, ';' ∉ a.Phone ∧ '|' ∉ a.Phone)
    (hrange : ∀ a ∈ s.accounts,
      int64Min ≤ a.ID ∧ a.ID ≤ int64Max ∧
      int64Min ≤ a.Balance ∧ a.Balance ≤ int64Max) :
    ImportFromFile emptyService (ExportToFile s) =
      some ⟨0, s.accounts, [], []⟩ := by
  unfold ImportFromFile
  rw [ExportToFile_eq_join,
    splitSep_pipe_join (fun a ha => (hphone a ha).2),
    ImportRecords_exported (fun a ha => (hphone a ha).1) hrange
      emptyService.accounts]
  rfl

/-- C3, witness: the spec's example accounts
`[{1,"+992000000001",500}, {2,"+992000000002",0}]` survive the
export/import round-trip field-for-field. -/
theorem claim3_witness :
    ImportFromFile emptyService
      (ExportToFile ⟨2, [⟨1, "+992000000001".toList, 500⟩,
        ⟨2, "+992000000002".toList, 0⟩], [], []⟩) =
      some ⟨0, [⟨1, "+992000000001".toList, 500⟩,
        ⟨2, "+992000000002".toList, 0⟩], [], []⟩ :=
  claim3_roundtrip
    ⟨2, [⟨1, "+992000000001".toList, 500⟩,
      ⟨2, "+992000000002".toList, 0⟩], [], []⟩
    (by decide) (by decide)

/-- C5 (amended): every state reachable from the empty service by the
service operations has only non-negative balances, provided each
`ImportFromFile` step's content parses only non-negative balance fields
(`ImportOK`); without that proviso the invariant fails (see the
counterexample). -/
theorem claim5_invariant (s : Service) (h : Reachable ImportOK s) :
    ∀ a ∈ s.accounts, 0 ≤ a.Balance :=
  (reachable_inv h).1

/-- C5, witness: the state after registering one account is reachable
under the restriction and its (only) account has balance `0 ≥ 0`. -/
theorem claim5_witness : 0 ≤ (Account.mk 1 ['p'] 0).Balance :=
  claim5_invariant (RegisterAccount emptyService ['p']).2
    (Reachable.step Reachable.empty (Step.register emptyService ['p']))
    ⟨1, ['p'], 0⟩ (by decide)

/-- C5, counterexample to the claim as stated: importing the file
`"1;p;-5|"` into the empty service is one of the listed operations, and
it yields a reachable state containing an account with balance `-5 < 0`.
-/
theorem claim5_counterexample :
    Reachable (fun _ => True) ⟨0, [⟨1, ['p'], -5⟩], [], []⟩ ∧
    (⟨1, ['p'], -5⟩ : Account) ∈
      (⟨0, [⟨1, ['p'], -5⟩], [], []⟩ : Service).accounts ∧
    (⟨1, ['p'], -5⟩ : Account).Balance < 0 := by
  refine ⟨Reachable.step Reachable.empty ?_, by decide, by decide⟩
  exact Step.importFromFile emptyService ⟨0, [⟨1, ['p'], -5⟩], [], []⟩
    ['1', ';', 'p', ';', '-', '5', '|'] trivial (by decide)

/-- C6 (amended): when every record before the first empty one splits
into at least three `';'`-fields, `ImportFromFile` is additive: it
returns, and appends exactly one account per such record (ID from field
0, phone from field 1, balance from field 2), touching neither the
pre-existing accounts nor payments, favorites or the ID counter, and
ignoring everything after the first empty record.  (Records with fewer
fields make the Go code panic instead — see the counterexample.) -/
theorem claim6_import_additive (s : Service) (content : List Char)
    (h3 : ∀ line ∈ recordsBeforeEmpty (splitSep '|' content),
      3 ≤ (splitSep ';' line).length) :
    ∃ s', ImportFromFile s content = some s' ∧
      s'.accounts = s.accounts ++
        (recordsBeforeEmpty (splitSep '|' content)).filterMap parseAccount ∧
      s'.payments = s.payments ∧
      s'.favorites = s.favorites ∧
      s'.nextAccountID = s.nextAccountID := by
  refine ⟨⟨s.nextAccountID,
    s.accounts ++
      (recordsBeforeEmpty (splitSep '|' content)).filterMap parseAccount,
    s.payments, s.favorites⟩, ?_, rfl, rfl, rfl, rfl⟩
  unfold ImportFromFile
  rw [ImportRecords_wellformed _ _ h3]
  rfl

/-- C6, witness: importing `"7;r;9|"` into a service holding one account
appends exactly the parsed account and stops at the trailing empty
record. -/
theorem claim6_witness :
    ∃ s', ImportFromFile ⟨1, [⟨1, ['q'], 3⟩], [], []⟩
        ['7', ';', 'r', ';', '9', '|'] = some s' ∧
      s'.accounts = [⟨1, ['q'], 3⟩] ++
        (recordsBeforeEmpty
          (splitSep '|' ['7', ';', 'r', ';', '9', '|'])).filterMap
          parseAccount ∧
      s'.payments = [] ∧ s'.favorites = [] ∧ s'.nextAccountID = 1 :=
  claim6_import_additive ⟨1, [⟨1, ['q'], 3⟩], [], []⟩
    ['7', ';', 'r', ';', '9', '|'] (by decide)

/-- C6, counterexample to the claim as stated: the file `"ab|"` has one
non-empty record `"ab"`; the claim says one account is appended for it,
but the Go loop indexes `item[2]` of a one-element split and panics
(modelled `none`), appending nothing and never returning. -/
theorem claim6_counterexample :
    ImportFromFile emptyService ['a', 'b', '|'] = none := by decide

/-- C8 (confirmed): `AddAccountWithBalance` returns exactly
`CannotRegisterAccount` when registration fails (phone taken), and
exactly `CannotDepositAccount` when the deposit fails (`balance ≤ 0`,
the only way the deposit step can fail); in the latter case the freshly
registered zero-balance account stays in the collection — no rollback. -/
theorem claim8_addAccount (s : Service) (phone : List Char)
    (balance : Money) :
    ((∃ a ∈ s.accounts, a.Phone = phone) →
      AddAccountWithBalance s phone balance =
        (.error .cannotRegisterAccount, s)) ∧
    ((¬ ∃ a ∈ s.accounts, a.Phone = phone) → balance ≤ 0 →
      (AddAccountWithBalance s phone balance).1 =
        .error .cannotDepositAccount ∧
      (⟨s.nextAccountID + 1, phone, 0⟩ : Account) ∈
        (AddAccountWithBalance s phone balance).2.accounts) := by
  constructor
  · intro h
    unfold AddAccountWithBalance
    simp only [RegisterAccount_dup h]
  · intro h hbal
    have key : AddAccountWithBalance s phone balance =
        (.error .cannotDepositAccount,
         ⟨s.nextAccountID + 1,
          s.accounts ++ [⟨s.nextAccountID + 1, phone, 0⟩],
          s.payments, s.favorites⟩) := by
      unfold AddAccountWithBalance
      simp only [RegisterAccount_fresh h]
      unfold Deposit
      rw [if_pos hbal]
    rw [key]
    exact ⟨rfl, by simp⟩

/-- C8, witness: re-registering a taken phone yields
`CannotRegisterAccount`; adding a fresh phone with balance `0` yields
`CannotDepositAccount` while the new zero-balance account remains. -/
theorem claim8_witness :
    AddAccountWithBalance ⟨1, [⟨1, ['p'], 0⟩], [], []⟩ ['p'] 5 =
      (.error .cannotRegisterAccount, ⟨1, [⟨1, ['p'], 0⟩], [], []⟩) ∧
    (AddAccountWithBalance emptyService ['q'] 0).1 =
      .error .cannotDepositAccount ∧
    (⟨1, ['q'], 0⟩ : Account) ∈
      (AddAccountWithBalance emptyService ['q'] 0).2.accounts := by
  have h1 := (claim8_addAccount ⟨1, [⟨1, ['p'], 0⟩], [], []⟩ ['p'] 5).1
    ⟨⟨1, ['p'], 0⟩, by decide, rfl⟩
  have h2 := (claim8_addAccount emptyService ['q'] 0).2 (by decide) (by decide)
  exact ⟨h1, h2.1, h2.2⟩

/-- C9 (amended): once open and read succeed, importing a file that ends
with `'|'` returns no error (the Go `return err` on the empty trailing
segment returns the `nil` left from the successful open) — provided
every record before the first empty one has at least three `';'`-fields;
records with fewer fields panic instead (see the counterexample). -/
theorem claim9_trailing_import_no_error (s : Service) (content : List Char)
    (hend : ∃ pre, content = pre ++ ['|'])
    (h3 : ∀ line ∈ recordsBeforeEmpty (splitSep '|' content),
      3 ≤ (splitSep ';' line).length) :
    (ImportFromFile s content).isSome = true := by
  unfold ImportFromFile
  rw [ImportRecords_wellformed _ _ h3]
  rfl

/-- C9, witness: importing `"1;a;2|"` (a non-empty `ExportToFile`-shaped
file) reports success. -/
theorem claim9_witness :
    (ImportFromFile emptyService ['1', ';', 'a', ';', '2', '|']).isSome =
      true :=
  claim9_trailing_import_no_error emptyService _
    ⟨['1', ';', 'a', ';', '2'], rfl⟩ (by decide)

/-- C9, counterexample to the claim as stated: `"x|"` ends with the
delimiter, yet the import never returns success — the one-field record
`"x"` makes the Go code index out of range (modelled `none`). -/
theorem claim9_counterexample :
    (['x', '|'] : List Char) = ['x'] ++ ['|'] ∧
    ImportFromFile emptyService ['x', '|'] = none :=
  ⟨rfl, by decide⟩

/-- C10 (amended): for a record with at least three `';'`-fields whose ID
field or balance field fails integer parsing, the import still returns
without error and appends the record's account, with `0` standing in for
each syntactically unparsable field (records with fewer than three
fields panic instead — see the counterexample). -/
theorem claim10_parse_failure_tolerated (s : Service) (content : List Char)
    (line f0 f1 f2 : List Char) (fs : List (List Char))
    (hline : line ∈ recordsBeforeEmpty (splitSep '|' content))
    (hsp : splitSep ';' line = f0 :: f1 :: f2 :: fs)
    (hbad : parseIntSyntax f0 = none ∨ parseIntSyntax f2 = none)
    (h3 : ∀ l ∈ recordsBeforeEmpty (splitSep '|' content),
      3 ≤ (splitSep ';' l).length) :
    ∃ s', ImportFromFile s content = some s' ∧
      (⟨goParseInt f0, f1, goParseInt f2⟩ : Account) ∈ s'.accounts ∧
      (parseIntSyntax f0 = none → goParseInt f0 = 0) ∧
      (parseIntSyntax f2 = none → goParseInt f2 = 0) := by
  refine ⟨⟨s.nextAccountID,
    s.accounts ++
      (recordsBeforeEmpty (splitSep '|' content)).filterMap parseAccount,
    s.payments, s.favorites⟩, ?_, ?_,
    fun hn => goParseInt_of_syntax_none hn,
    fun hn => goParseInt_of_syntax_none hn⟩
  · unfold ImportFromFile
    rw [ImportRecords_wellformed _ _ h3]
    rfl
  · refine List.mem_append.mpr (Or.inr ?_)
    refine List.mem_filterMap.mpr ⟨line, hline, ?_⟩
    unfold parseAccount
    rw [hsp]

/-- C10, witness: in `"a;p;7|"` the ID field `"a"` is unparsable; the
account `{0, "p", 7}` is still appended and the import succeeds. -/
theorem claim10_witness :
    ∃ s', ImportFromFile emptyService ['a', ';', 'p', ';', '7', '|'] =
        some s' ∧
      (⟨goParseInt ['a'], ['p'], goParseInt ['7']⟩ : Account) ∈
        s'.accounts ∧
      (parseIntSyntax ['a'] = none → goParseInt ['a'] = 0) ∧
      (parseIntSyntax ['7'] = none → goParseInt ['7'] = 0) :=
  claim10_parse_failure_tolerated emptyService
    ['a', ';', 'p', ';', '7', '|'] ['a', ';', 'p', ';', '7']
    ['a'] ['p'] ['7'] [] (by decide) (by decide) (Or.inl (by decide))
    (by decide)

/-- C10, counterexample to the claim as stated: the record `"z"` has a
syntactically invalid ID field, but rather than appending an account
with ID `0`, the import panics on the missing third field (modelled
`none`) and appends nothing. -/
theorem claim10_counterexample :
    parseIntSyntax ['z'] = none ∧
    ImportFromFile emptyService ['z', '|'] = none :=
  ⟨by decide, by decide⟩

end Wallet
